import Mathlib

/-!
Verification development for the pywebarchive core (webarchive/webarchive.py,
webarchive/util.py, webarchive/webresource.py).

The Python code is shallowly embedded: byte strings become `List Nat`,
Python `str` becomes `String`, dictionaries become association lists kept in
insertion order, raised exceptions become `Except String` / `Option` results,
and filesystem effects become explicit lists of actions.  The standard-library
collaborators (`urllib.parse`, `mimetypes`, the HTML tokenizer) are modelled
by executable Lean functions covering the behaviour the core exercises, as
documented on each definition.
-/

namespace Pywebarchive

/-- Models the Python substring test `pat in s` on strings. -/
def containsSub (s pat : String) : Bool := decide (pat.data <:+: s.data)

/-- Models `util.bytes_to_str`: byte-wise `chr` decoding of a byte sequence. -/
def bytesToStr (bs : List Nat) : String := String.mk (bs.map Char.ofNat)

/-- Models `str.encode` for the ASCII/latin-1 texts appearing here:
byte-wise `ord` of each character. -/
def strToBytes (s : String) : List Nat := s.data.map Char.toNat

/-- The base64 alphabet, position `n` holding the digit of value `n`. -/
def b64Alphabet : List Char :=
  "ABCDEFGHIJKLMNOPQRSTUVWXYZabcdefghijklmnopqrstuvwxyz0123456789+/".data

/-- The base64 digit of value `n` (< 64). -/
def b64Char (n : Nat) : Char := b64Alphabet.getD n '='

/-- Models `base64.b64encode` on a byte sequence (standard alphabet,
`=` padding). -/
def base64Encode : List Nat → List Char
  | [] => []
  | [a] => [b64Char (a / 4 % 64), b64Char (a % 4 * 16), '=', '=']
  | [a, b] => [b64Char (a / 4 % 64), b64Char (a % 4 * 16 + b / 16), b64Char (b % 16 * 4), '=']
  | a :: b :: c :: rest =>
      [b64Char (a / 4 % 64), b64Char (a % 4 * 16 + b / 16),
       b64Char (b % 16 * 4 + c / 64), b64Char (c % 64)] ++ base64Encode rest

/-- Models `util.make_data_uri`: `data:<mime>;base64,<payload>`. -/
def makeDataUri (mimeType : String) (data : List Nat) : String :=
  "data:" ++ mimeType ++ ";base64," ++ String.mk (base64Encode data)

/-- `Char.toLower` over a whole string (models `str.lower()`; kept on the
character list so that concrete instances compute in the kernel). -/
def strLower (s : String) : String := String.mk (s.data.map Char.toLower)

/-- Models `str.startswith` (kept on the character lists so that concrete
instances compute in the kernel). -/
def strStartsWith (s pre : String) : Bool := pre.data.isPrefixOf s.data

/-- A character allowed in a URL scheme (RFC 3986). -/
def isSchemeChar (c : Char) : Bool := c.isAlphanum || c = '+' || c = '-' || c = '.'

/-- Splits `scheme:rest` off a URL when a well-formed scheme is present.
Models the scheme recognition of `urllib.parse`. -/
def schemeSplit (u : String) : Option (String × String) :=
  let p := u.data.span (fun c => c ≠ ':' ∧ c ≠ '/' ∧ c ≠ '?' ∧ c ≠ '#')
  match p.2 with
  | ':' :: after =>
      if p.1 ≠ [] ∧ p.1.all isSchemeChar ∧ (p.1.headD ' ').isAlpha then
        some (String.mk p.1, String.mk after)
      else none
  | _ => none

/-- Splits `//netloc/path` into the netloc and the path (path kept with its
leading slash, or empty). -/
def netlocSplit (rest : String) : Option (String × String) :=
  match rest.data with
  | '/' :: '/' :: tl =>
      let q := tl.span (fun c => c ≠ '/')
      some (String.mk q.1, String.mk q.2)
  | _ => none

/-- The directory part of a URL path, up to and including the last `/`
(`"/"` when the path has none). -/
def dirOfPath (path : String) : String :=
  let r := path.data.reverse
  let cut := r.drop (r.takeWhile (fun c => c ≠ '/')).length
  if cut = [] then "/" else String.mk cut.reverse

/-- Models `urllib.parse.urljoin` for the reference shapes the core exercises:
a reference carrying its own scheme passes through; `//`-, `/`- and
plain-relative references resolve against the base's scheme, netloc and
directory.  Dot-segment normalisation and query/fragment splitting are not
performed (no input here contains them). -/
def urljoin (base ref : String) : String :=
  if ref = "" then base
  else
    match schemeSplit ref with
    | some _ => ref
    | none =>
      match schemeSplit base with
      | none => ref
      | some (scheme, rest) =>
        match netlocSplit rest with
        | none => ref
        | some (netloc, path) =>
          if strStartsWith ref "//" then scheme ++ ":" ++ ref
          else if strStartsWith ref "/" then scheme ++ "://" ++ netloc ++ ref
          else scheme ++ "://" ++ netloc ++ dirOfPath path ++ ref

/-- The (lower-cased) scheme of a URL, `""` when none is recognised.
Models `urllib.parse.urlparse(...).scheme`. -/
def urlScheme (u : String) : String :=
  match schemeSplit u with
  | some (s, _) => strLower s
  | none => ""

/-- The path component of a URL.  Models `urllib.parse.urlparse(...).path`
for the URL shapes the allocator sees (query and fragment stripped). -/
def urlPath (u : String) : String :=
  let stripQF (s : String) : String :=
    String.mk (s.data.takeWhile (fun c => c ≠ '?' ∧ c ≠ '#'))
  match schemeSplit u with
  | none => stripQF u
  | some (_, rest) =>
    match netlocSplit rest with
    | some (_, path) => stripQF path
    | none => stripQF rest

/-- Models `os.path.basename` on a URL path: the part after the last `/`. -/
def pathBasename (path : String) : String :=
  String.mk (path.data.reverse.takeWhile (fun c => c ≠ '/')).reverse

/-- Models `os.path.splitext`: splits a basename at its last dot, except that
a dot-run at the very start never begins an extension (`.bashrc` keeps its
dot). -/
def splitext (name : String) : String × String :=
  let l := name.data
  let stem := l.takeWhile (fun c => c = '.')
  let body := l.drop stem.length
  let revBody := body.reverse
  let revExt := revBody.takeWhile (fun c => c ≠ '.')
  if revExt.length = body.length then (name, "")
  else
    (String.mk (stem ++ (body.take (body.length - revExt.length - 1))),
     String.mk ('.' :: revExt.reverse))

/-- Models `html.escape(value, quote=True)` on one character. -/
def escapeChar (c : Char) : List Char :=
  if c = '&' then "&amp;".data
  else if c = '<' then "&lt;".data
  else if c = '>' then "&gt;".data
  else if c = '"' then "&quot;".data
  else if c = '\'' then "&#x27;".data
  else [c]

/-- Models `html.escape(value, quote=True)` (used on attribute values). -/
def escapeHtml (s : String) : String := String.mk (s.data.map escapeChar).flatten

/-- One replacement pass of Python `str.replace`: substitutes `repl` for each
non-overlapping occurrence of the pattern `p :: ps`, left to right.  `fuel`
only bounds the recursion (each step consumes at least one character, and
callers pass the input length), keeping the recursion structural so that
concrete instances compute. -/
def replaceAllAux (p : Char) (ps repl : List Char) : Nat → List Char → List Char
  | _, [] => []
  | 0, l => l
  | fuel + 1, c :: rest =>
    if (p :: ps) <+: (c :: rest) then
      repl ++ replaceAllAux p ps repl fuel (rest.drop ps.length)
    else c :: replaceAllAux p ps repl fuel rest

/-- Models Python `str.replace(pat, repl)` (all occurrences; with an empty
pattern the string is returned unchanged, a case no caller reaches). -/
def strReplace (s pat repl : String) : String :=
  match pat.data with
  | [] => s
  | p :: ps => String.mk (replaceAllAux p ps repl.data s.data.length s.data)

/-- One archived resource (`webresource.WebResource`): raw bytes, MIME type
and source URL.  The text-encoding and frame-name attributes play no part in
the verified operations and are omitted. -/
structure WebResource where
  data : List Nat
  mimeType : String
  url : String
deriving Repr, DecidableEq

/-- One archive tree (`webarchive.WebArchive`): optional main resource,
subresources, nested subframe archives, and the local-path table
(`_local_paths`, an insertion-ordered association list). -/
inductive WebArchive where
  | mk (mainResource : Option WebResource) (subresources : List WebResource)
       (subframeArchives : List WebArchive) (localPaths : List (String × String))
deriving Repr

/-- The archive's main resource. -/
def WebArchive.mainResource : WebArchive → Option WebResource
  | .mk m _ _ _ => m

/-- The archive's subresources. -/
def WebArchive.subresources : WebArchive → List WebResource
  | .mk _ s _ _ => s

/-- The archive's subframe archives. -/
def WebArchive.subframeArchives : WebArchive → List WebArchive
  | .mk _ _ f _ => f

/-- The archive's local-path table, keyed by absolute URL. -/
def WebArchive.localPaths : WebArchive → List (String × String)
  | .mk _ _ _ lp => lp

/-- Dictionary lookup in the local-path table (first binding wins, as for a
Python dict in insertion order without duplicate keys). -/
def lookupLp (lp : List (String × String)) (url : String) : Option String :=
  match lp.find? (fun e => e.1 = url) with
  | some e => some e.2
  | none => none

/-- Models `WebArchive.get_local_path`: plain table lookup, raising
`WebArchiveError` when the URL has no entry.  No absolute-URL check. -/
def getLocalPath (a : WebArchive) (url : String) : Except String String :=
  match lookupLp a.localPaths url with
  | some p => .ok p
  | none => .error "no local path for the specified URL"

/-- Models `WebArchive.get_subresource`: rejects URLs without `://`, then
scans the subresource list for a matching URL. -/
def getSubresource (a : WebArchive) (url : String) : Except String WebResource :=
  if ¬ containsSub url "://" then .error "must specify an absolute URL"
  else
    match a.subresources.find? (fun r => r.url = url) with
    | some r => .ok r
    | none => .error "no subresource for the specified URL"

/-- Models `WebArchive.get_subframe_archive`: rejects URLs without `://`,
then scans the subframe archives for one whose main resource has the URL.
(The source reads `subframe_archive.main_resource.url`; a subframe without a
main resource would raise `AttributeError` there, modelled as no match.) -/
def getSubframeArchive (a : WebArchive) (url : String) : Except String WebArchive :=
  if ¬ containsSub url "://" then .error "must specify an absolute URL"
  else
    match a.subframeArchives.find? (fun sa =>
        match sa.mainResource with
        | some m => m.url = url
        | none => false) with
    | some sa => .ok sa
    | none => .error "no subframe archive for the specified URL"

/-- Models `WebArchive.resource_count`: one for the main resource when
present, plus the subresources, plus the counts of all subframe archives. -/
def resourceCount : WebArchive → Nat
  | .mk main subs frames _ =>
    (match main with | some _ => 1 | none => 0) + subs.length
      + (frames.attach.map (fun x => resourceCount x.1)).sum
decreasing_by
  have := List.sizeOf_lt_of_mem x.2
  simp only [WebArchive.mk.sizeOf_spec]
  omega

/-- The MIME-type → extension table.  Models `mimetypes.guess_extension`
restricted to the types this development uses, together with the module-level
`mimetypes.add_type` calls at the bottom of webarchive.py. -/
def guessExtension (mime : String) : Option String :=
  if mime = "image/png" then some ".png"
  else if mime = "image/jpeg" then some ".jpg"
  else if mime = "image/gif" then some ".gif"
  else if mime = "text/html" then some ".html"
  else if mime = "text/css" then some ".css"
  else if mime = "text/javascript" then some ".js"
  else if mime = "application/x-javascript" then some ".js"
  else if mime = "application/font-woff" then some ".woff"
  else if mime = "application/x-font-woff" then some ".woff"
  else if mime = "font/woff" then some ".woff"
  else if mime = "font/woff2" then some ".woff2"
  else none

/-- The characters `_make_local_path` replaces with `_` in a basename. -/
def forbiddenFilenameChars : List Char :=
  ['%', '<', '>', ':', '"', '/', '\\', '|', '?', '*']

/-- The sanitisation steps of `_make_local_path`: forbidden characters become
`_`, and reserved DOS device names get a trailing underscore. -/
def sanitizeBase (base : String) : String :=
  let b := String.mk (base.data.map (fun c =>
    if c ∈ forbiddenFilenameChars then '_' else c))
  let lower := strLower b
  if lower = "con" ∨ lower = "prn" ∨ lower = "aux" ∨ lower = "nul"
      ∨ (b.data.length = 4
         ∧ (lower.data.take 3 = "com".data ∨ lower.data.take 3 = "lpt".data)
         ∧ (b.data.getD 3 ' ').isDigit) then
    b ++ "_"
  else b

/-- The basename `_make_local_path` derives from a resource's URL, before the
extension is attached: `data_url` for data URLs, `blank_url` when the URL or
its path basename is empty, otherwise the sanitised stem of the URL path's
basename. -/
def deriveBase (r : WebResource) : String :=
  let base :=
    if r.url ≠ "" then
      if urlScheme r.url = "data" then "data_url"
      else (splitext (pathBasename (urlPath r.url))).1
    else ""
  let base := if base = "" then "blank_url" else base
  sanitizeBase base

/-- The collision-suffix form `base.<k>.ext` produced by
`"{0}.{1}{2}".format(base, copy_num, ext)`. -/
def localPathCand (base ext : String) (k : Nat) : String :=
  base ++ "." ++ Nat.repr k ++ ext

/-- The collision loop of `_make_local_path`, starting at copy number `k`:
tries `base.k.ext`, `base.(k+1).ext`, ... while the candidate is already an
allocated value.  `fuel` bounds the search; the callers pass enough fuel for
the loop to exit exactly as the unbounded Python loop does. -/
def uniquifyFrom (base ext : String) (used : List String) : Nat → Nat → String
  | k, 0 => localPathCand base ext k
  | k, fuel + 1 =>
    let cand := localPathCand base ext k
    if cand ∈ used then uniquifyFrom base ext used (k + 1) fuel else cand

/-- Models `WebArchive._make_local_path`: derive base and extension, then
append an incrementing copy number starting at 2 until the name is not among
the already-allocated values. -/
def makeLocalPath (lp : List (String × String)) (r : WebResource) : String :=
  let base := deriveBase r
  let ext := (guessExtension r.mimeType).getD ""
  let used := lp.map (fun e => e.2)
  let first := base ++ ext
  if first ∈ used then uniquifyFrom base ext used 2 (used.length + 1) else first

/-- One step of `_make_local_paths`: allocate a path for the resource's URL
unless the table already has one. -/
def insertLocalPath (lp : List (String × String)) (r : WebResource) : List (String × String) :=
  if (lookupLp lp r.url).isSome then lp else lp ++ [(r.url, makeLocalPath lp r)]

/-- Allocation of local paths for a resource list, in order, extending an
existing table. -/
def makeLocalPathsFrom (lp : List (String × String)) (rs : List WebResource) :
    List (String × String) :=
  rs.foldl insertLocalPath lp

/-- Models `WebArchive._make_local_paths`: the resources considered are the
main resource (when present), the subresources, and each subframe archive's
main resource.  `none` models the `AttributeError` the source raises when a
subframe archive has no main resource. -/
def makeLocalPathsA (a : WebArchive) : Option (List (String × String)) :=
  (a.subframeArchives.mapM (fun sa : WebArchive => sa.mainResource)).map (fun sfMains =>
    let rs := (match a.mainResource with | some r => [r] | none => [])
              ++ a.subresources ++ sfMains
    makeLocalPathsFrom a.localPaths rs)

/-- A filesystem effect of extraction, at the path level.  The bytes written
are produced by the rewriters, verified separately; the claims about
`extract` itself concern which files and directories are created. -/
inductive FsAction where
  | writeFile (path : String)
  | makeDirs (path : String)
deriving Repr, DecidableEq

/-- Models `os.path.basename`. -/
def osBasename (p : String) : String :=
  String.mk (p.data.reverse.takeWhile (fun c => c ≠ '/')).reverse

/-- Models `os.path.dirname` for the paths used here: everything before the
last `/`, or `""` when there is none. -/
def osDirname (p : String) : String :=
  let r := p.data.reverse
  match r.drop (r.takeWhile (fun c => c ≠ '/')).length with
  | '/' :: rest => String.mk rest.reverse
  | _ => ""

/-- Models `os.path.join` for a directory and a basename. -/
def joinPath (d b : String) : String := if d = "" then b else d ++ "/" ++ b

/-- The subresource directory `extract` derives from its output path:
`<stem>_files` next to the output file. -/
def subresourceDirOf (outputPath : String) : String :=
  joinPath (osDirname outputPath) ((splitext (osBasename outputPath)).1 ++ "_files")

/-- Models `WebArchive._extract_main_resource` at the path level: raises
`WebArchiveError` when the archive has no main resource, otherwise writes the
output file. -/
def extractMainActions (a : WebArchive) (outputPath : String) : Except String (List FsAction) :=
  match a.mainResource with
  | none => .error "archive does not have a main resource"
  | some _ => .ok [.writeFile outputPath]

/-- Models `WebArchive.extract` at the path level, with the default `None`
callbacks (so no cancellation).  Embedded mode writes only the output file.
Linked mode allocates local paths, writes the main document, creates the
subresource directory when there are subresources or subframe archives,
writes each subresource, and recurses into each subframe archive. -/
def extract : WebArchive → String → Bool → Except String (List FsAction)
  | .mk main subs frames lpOrig, outputPath, embedSubresources =>
    if embedSubresources then
      extractMainActions (.mk main subs frames lpOrig) outputPath
    else
      match makeLocalPathsA (.mk main subs frames lpOrig) with
      | none => .error "subframe archive without a main resource"
      | some lp =>
        match main with
        | none => .error "archive does not have a main resource"
        | some _ =>
          let dir := subresourceDirOf outputPath
          let dirActs := if ¬ subs.isEmpty ∨ ¬ frames.isEmpty then [FsAction.makeDirs dir] else []
          match (subs.mapM (fun res =>
              (lookupLp lp res.url).map (fun p => FsAction.writeFile (joinPath dir p)))
              : Option (List FsAction)) with
          | none => .error "KeyError"
          | some subActs =>
            match (frames.attach.mapM (fun x =>
                match x.1.mainResource with
                | none => .error "subframe archive without a main resource"
                | some m =>
                  match lookupLp lp m.url with
                  | some p => extract x.1 (joinPath dir p) false
                  | none => .error "KeyError")
                : Except String (List (List FsAction))) with
            | .error e => .error e
            | .ok frameActs =>
              .ok ([FsAction.writeFile outputPath] ++ dirActs ++ subActs ++ frameActs.flatten)
decreasing_by
  have := List.sizeOf_lt_of_mem x.2
  simp only [WebArchive.mk.sizeOf_spec]
  omega

/-- The matcher for the pattern `url\(([^\)]+)\)` of `RX_STYLE_SHEET_URL`:
scans left to right; at each literal `url(` takes the non-empty run of
non-`)` characters up to the next `)` as a match and continues after it,
exactly as `re.findall` does. -/
def findMatchesAux : Nat → List Char → List (List Char)
  | _, [] => []
  | 0, _ => []
  | fuel + 1, c :: rest =>
    if "url(".data <+: (c :: rest) then
      let after := rest.drop 3
      let cap := after.takeWhile (fun x => x ≠ ')')
      match after.drop cap.length with
      | ')' :: tl =>
        if cap ≠ [] then cap :: findMatchesAux fuel tl else findMatchesAux fuel rest
      | _ => findMatchesAux fuel rest
    else findMatchesAux fuel rest

/-- `re.findall(RX_STYLE_SHEET_URL, content)` as a list of captured strings.
The fuel argument of the scanner only bounds its recursion (each step
consumes at least one character of the input). -/
def findStyleSheetUrls (content : String) : List String :=
  (findMatchesAux content.data.length content.data).map String.mk

/-- The quote-stripping step of `process_style_sheet`: one leading and then
one trailing quote character (single or double) removed if present. -/
def stripQuotes (m : String) : String :=
  let l := m.data
  let l := if l.head? = some '"' ∨ l.head? = some '\'' then l.drop 1 else l
  let l := if l.getLast? = some '"' ∨ l.getLast? = some '\'' then l.dropLast else l
  String.mk l

/-- Models `util.process_style_sheet`.  Raises `TypeError` (the `.error`
case) for non-CSS resources.  For each matched `url()` literal: strip quotes,
skip blanks, resolve against the style sheet's own URL, then substitute —
the local path when `local_paths` is truthy and has the URL, otherwise the
absolute URL.  In the embedded branch (`local_paths` falsy) the source also
computes a data-URI replacement when a subresource matches, but then
substitutes `abs_url` regardless; the never-used computation is omitted
here. -/
def processStyleSheet (res : WebResource) (_subresources : List WebResource)
    (localPaths : Option (List (String × String))) : Except String String :=
  if res.mimeType ≠ "text/css" then .error "res must have mime_type == 'text/css'"
  else
    let content := bytesToStr res.data
    .ok ((findStyleSheetUrls content).foldl (fun content m0 =>
      let m := stripQuotes m0
      if m = "" then content
      else
        let absUrl := urljoin res.url m
        match localPaths with
        | some lp =>
          if ¬ lp.isEmpty then
            match lookupLp lp absUrl with
            | some localUrl => strReplace content m localUrl
            | none => strReplace content m absUrl
          else strReplace content m absUrl
        | none => strReplace content m absUrl) content)

/-- Modelled from the spec: `util.process_css_resource(res, output)` — called
by `WebResource.to_data_uri` for style sheets but absent from the sources —
routes a style sheet through the §4.4 rewriter in embedded mode, which is
`process_style_sheet` with no local paths. -/
def processCssResourceEmbedded (a : WebArchive) (r : WebResource) : String :=
  (processStyleSheet r a.subresources none).toOption.getD ""

/-- The URL of the archive's main resource (`self._archive._main_resource._url`
as read by `to_data_uri`; the source would raise `AttributeError` when the
main resource is absent, a case no claim reaches). -/
def archiveMainUrl (a : WebArchive) : String :=
  match a.mainResource with | some m => m.url | none => ""

/-- Models `WebResource.to_data_uri`.  `inlineHtml` stands for
`WebArchive.to_html`, the whole-document inlining used when the resource is
the archive's main resource; it is a parameter because the claims verified
here never reach that branch (they hypothesise the resource is not the main
one), and theorems hold for every choice of it.  (When the archive has no
main resource the source would raise `AttributeError`; no claim reaches
that.) -/
def toDataUri (inlineHtml : WebArchive → String) (a : WebArchive) (r : WebResource) : String :=
  let mainUrl := archiveMainUrl a
  if r.url = mainUrl then
    makeDataUri r.mimeType (strToBytes (inlineHtml a))
  else if r.mimeType = "text/css" then
    makeDataUri r.mimeType (strToBytes (processCssResourceEmbedded a r))
  else
    makeDataUri r.mimeType r.data

/-- Python truthiness of the processor's `_root` (a string or `None`). -/
def rootTruthy : Option String → Bool
  | some r => ¬ r.data.isEmpty
  | none => false

/-- Models `MainResourceProcessor._resource_url`: the (root-prefixed) local
path when the resolved URL has one, otherwise the absolute URL. -/
def resourceUrl (a : WebArchive) (mainUrl : String) (root : Option String)
    (origUrl : String) : String :=
  let absUrl := urljoin mainUrl origUrl
  match getLocalPath a absUrl with
  | .ok localPath =>
    match root with
    | some r => if ¬ r.data.isEmpty then r ++ "/" ++ localPath else localPath
    | none => localPath
  | .error _ => absUrl

/-- Models `str.split(",")`: `acc` accumulates the current (reversed)
segment. -/
def splitOnCommaAux : List Char → List Char → List (List Char)
  | acc, [] => [acc.reverse]
  | acc, c :: rest =>
    if c = ',' then acc.reverse :: splitOnCommaAux [] rest
    else splitOnCommaAux (c :: acc) rest

/-- Models `str.split(",")` on strings. -/
def splitOnComma (s : String) : List String :=
  (splitOnCommaAux [] s.data).map String.mk

/-- Models `str.strip()`: leading and trailing whitespace removed. -/
def pyStrip (s : String) : String :=
  String.mk ((s.data.dropWhile Char.isWhitespace).reverse.dropWhile Char.isWhitespace).reverse

/-- Models `item.split(" ", 1)` in a two-variable unpacking: the part before
the first space and the rest; `none` models the `ValueError` raised when the
item has no space. -/
def splitFirstSpace (s : String) : Option (String × String) :=
  let pre := s.data.takeWhile (fun c => c ≠ ' ')
  match s.data.drop pre.length with
  | ' ' :: rest => some (String.mk pre, String.mk rest)
  | _ => none

/-- Models the `srcset` branch of `_process_attr_value`: split on commas,
strip each item, rewrite each item's URL part with `_resource_url`, keep the
descriptor, and re-join with `", "`.  `none` models the uncaught `ValueError`
for an item without a descriptor. -/
def processSrcset (a : WebArchive) (mainUrl : String) (root : Option String)
    (value : String) : Option String :=
  (((splitOnComma value).map pyStrip).mapM (fun item =>
      (splitFirstSpace item).map (fun sr =>
        resourceUrl a mainUrl root sr.1 ++ " " ++ sr.2))).map
    (fun items => String.intercalate ", " items)

/-- Models `MainResourceProcessor._process_attr_value` on the unescaped
value, for every branch except `srcset` (isolated in `processAttrValue`
because only it can raise).  `inlineHtml` stands for `WebArchive.to_html`
as in `toDataUri`.  (A subframe archive without a main resource would make
the source raise `AttributeError` where it reads `sf.main_resource.mime_type`;
no claim reaches that, and the value is passed through there.) -/
def processAttrRaw (inlineHtml : WebArchive → String) (a : WebArchive) (mainUrl : String)
    (root : Option String) (tag attr value : String) : String :=
  if (tag = "a" ∧ attr = "href") ∨ (tag = "form" ∧ attr = "action") then
    urljoin mainUrl value
  else if attr = "src" ∨ (tag = "link" ∧ attr = "href") then
    if tag = "frame" ∨ tag = "iframe" then
      if rootTruthy root then resourceUrl a mainUrl root value
      else
        match getSubframeArchive a (urljoin mainUrl value) with
        | .ok sf =>
          match sf.mainResource with
          | some m => makeDataUri m.mimeType (strToBytes (inlineHtml sf))
          | none => value
        | .error _ => value
    else
      if rootTruthy root then resourceUrl a mainUrl root value
      else
        match getSubresource a (urljoin mainUrl value) with
        | .ok res => toDataUri inlineHtml a res
        | .error _ => value
  else value

/-- Models `MainResourceProcessor._process_attr_value` including the final
`html.escape(value, quote=True)`.  The `srcset` branch (the only one that can
raise) is reached exactly when the attribute is named `srcset`, since the
earlier branches only match the attribute names `href`, `action` and `src`;
it is therefore isolated here, with `none` modelling the uncaught
`ValueError`. -/
def processAttrValue (inlineHtml : WebArchive → String) (a : WebArchive) (mainUrl : String)
    (root : Option String) (tag attr value : String) : Option String :=
  if attr = "srcset" then
    (processSrcset a mainUrl root value).map escapeHtml
  else
    some (escapeHtml (processAttrRaw inlineHtml a mainUrl root tag attr value))

/-- The void (self-closing) elements recognised by the processor. -/
def voidElements : List String :=
  ["area", "base", "br", "col", "embed", "hr", "img", "input", "link",
   "meta", "param", "source", "track", "wbr", "command", "keygen", "menuitem"]

/-- The attribute-emitting loop of `_build_starttag`: ` attr="value"` for
each attribute, with `srcset` omitted from `img` tags. -/
def starttagAttrs (inlineHtml : WebArchive → String) (a : WebArchive) (mainUrl : String)
    (root : Option String) (tag : String) : List (String × String) → Option String
  | [] => some ""
  | (attr, value) :: rest =>
    if tag = "img" ∧ attr = "srcset" then
      starttagAttrs inlineHtml a mainUrl root tag rest
    else
      match processAttrValue inlineHtml a mainUrl root tag attr value with
      | some v =>
        (starttagAttrs inlineHtml a mainUrl root tag rest).map
          (fun restS => " " ++ attr ++ "=\"" ++ v ++ "\"" ++ restS)
      | none => none

/-- The ordinary (non-`link`-replacement) output of `_build_starttag`,
without the marker comment: `<tag attrs…>` closed with ` />` for void or
explicitly empty tags in XHTML mode. -/
def ordinaryStarttag (inlineHtml : WebArchive → String) (a : WebArchive) (mainUrl : String)
    (root : Option String) (isXhtml : Bool) (tag : String)
    (attrs : List (String × String)) (isEmpty : Bool) : Option String :=
  (starttagAttrs inlineHtml a mainUrl root tag attrs).map (fun attrsS =>
    "<" ++ tag ++ attrsS
      ++ (if isXhtml ∧ (isEmpty ∨ tag ∈ voidElements) then " />" else ">"))

/-- The marker comment `_build_starttag` attaches to the opening `html`
tag. -/
def htmlMarker : String := "<!-- Processed by pywebarchive -->\n"

/-- Models `MainResourceProcessor._build_starttag`.  In embedded mode
(`root = none`) a `<link rel="stylesheet">` is replaced by an inline
`<style>` element holding the rewritten style sheet (empty on a failed
lookup; `none` models the uncaught `TypeError` when the linked resource is
not CSS, or when the tag has no `href` at all, where the source passes
`None` into `get_subresource`).  Otherwise the tag is rebuilt with processed
attributes, and for an `html` tag the marker comment is prepended (the
source inserts it at position 0 of the output fragment). -/
def buildStarttag (inlineHtml : WebArchive → String) (a : WebArchive) (mainUrl : String)
    (root : Option String) (isXhtml : Bool) (tag : String)
    (attrs : List (String × String)) (isEmpty : Bool) : Option String :=
  if root = none ∧ tag = "link" then
    let isStylesheet := attrs.any (fun p => p.1 = "rel" ∧ strLower p.2 = "stylesheet")
    let linkHref := attrs.foldl (fun acc p =>
      if p.1 = "rel" ∧ strLower p.2 = "stylesheet" then acc
      else if p.1 = "href" then some (urljoin mainUrl p.2)
      else acc) none
    if isStylesheet then
      let content? : Option String :=
        match linkHref with
        | some h =>
          match getSubresource a h with
          | .ok res => (processStyleSheet res a.subresources none).toOption
          | .error _ => some ""
        | none => none
      content?.map (fun content => "<style>" ++ content ++ "</style>")
    else
      (ordinaryStarttag inlineHtml a mainUrl root isXhtml tag attrs isEmpty).map
        (fun s => (if tag = "html" then htmlMarker else "") ++ s)
  else
    (ordinaryStarttag inlineHtml a mainUrl root isXhtml tag attrs isEmpty).map
      (fun s => (if tag = "html" then htmlMarker else "") ++ s)

/-- The most-significant-first decimal digit characters of a natural number
(the reference specification of `Nat.repr`, used to prove the collision
suffixes `base.2.ext`, `base.3.ext`, ... pairwise distinct). -/
def decimalDigits (n : Nat) : List Char :=
  if n < 10 then [Nat.digitChar n]
  else decimalDigits (n / 10) ++ [Nat.digitChar (n % 10)]
decreasing_by exact Nat.div_lt_self (by omega) (by omega)

/-- Reads a decimal digit string back into the number it denotes. -/
def digitsVal (l : List Char) : Nat :=
  l.foldl (fun a c => a * 10 + (c.toNat - '0'.toNat)) 0

/-- The identification rule of the spec's mode-equivalence property (§8),
following the spec's words (this is the comparison side of the refinement
claim C4, not an embedding of source code): a value that is the data URI of
an archived subresource stands for that resource's original URL; an
allocated local path — prefixed by the subresource directory when one is in
use — stands for the URL it was allocated to; any other value stands for
itself. -/
def logicalReferent (a : WebArchive) (root : Option String) (v : String) : String :=
  let stripped :=
    match root with
    | some r =>
      if ¬ r.data.isEmpty ∧ (r ++ "/").data.isPrefixOf v.data then
        String.mk (v.data.drop (r.data.length + 1))
      else v
    | none => v
  match a.localPaths.find? (fun e => e.2 = stripped) with
  | some e => e.1
  | none =>
    match a.subresources.find? (fun res => toDataUri (fun _ => "") a res = stripped) with
    | some res => res.url
    | none => stripped

/-! Concrete fixtures used by the closed theorems and witnesses. -/

/-- A stylesheet resource at `https://x/css/site.css` referencing
`bg.png`. -/
def siteCss : WebResource :=
  ⟨strToBytes "background: url(bg.png);", "text/css", "https://x/css/site.css"⟩

/-- An archived image at `https://x/css/bg.png` with bytes `01 02 03`. -/
def bgPng : WebResource := ⟨[1, 2, 3], "image/png", "https://x/css/bg.png"⟩

/-- An archive holding `bgPng` as its only subresource. -/
def archiveCss : WebArchive := .mk none [bgPng] [] []

/-- A main HTML resource at `https://x/index.html`. -/
def mainIndexX : WebResource := ⟨strToBytes "", "text/html", "https://x/index.html"⟩

/-- An archive with a main resource and no subresources. -/
def archiveNoSubs : WebArchive := .mk (some mainIndexX) [] [] []

/-- An archive whose local-path table has an entry under a key without
`://`. -/
def archiveRelKey : WebArchive :=
  .mk none [⟨[], "image/png", "nourl"⟩] [] [("nourl", "f.png")]

/-- An archive with a main resource and one image subresource. -/
def archiveOneSub : WebArchive :=
  .mk (some mainIndexX) [⟨[], "image/png", "https://x/p.png"⟩] []
    [("https://x/index.html", "index.html"), ("https://x/p.png", "p.png")]

/-- Two image resources sharing the basename `pic.png` under different
URLs. -/
def picA : WebResource := ⟨[], "image/png", "https://x/pic.png"⟩

/-- See `picA`. -/
def picB : WebResource := ⟨[], "image/png", "https://y/pic.png"⟩

/-! ## Claim theorems -/

/-- C1: evaluation of the failing input.  In embedded (single-file) mode the
stylesheet rewriter substitutes the resolved absolute URL for the `url()`
literal even though the referenced resource is an archived subresource whose
data URI (`data:image/png;base64,AQID`) the claim — and the function's own
docstring — say should be substituted; no data URI appears in the output. -/
theorem embedded_stylesheet_keeps_absolute_url :
    processStyleSheet siteCss [bgPng] none
        = .ok "background: url(https://x/css/bg.png);"
      ∧ toDataUri (fun _ => "") archiveCss bgPng = "data:image/png;base64,AQID"
      ∧ containsSub "background: url(https://x/css/bg.png);" "base64" = false :=
  ⟨by rfl, by decide, by decide⟩

/-- C5: an `a` tag's `href` and a `form` tag's `action` are always rewritten
to the absolute URL resolved against the main resource's URL (then
attribute-escaped), in both extraction modes — never to a local path and
never to a data URI, since the result is the resolved URL itself. -/
theorem anchor_and_form_rewritten_absolute (inlineHtml : WebArchive → String)
    (a : WebArchive) (mainUrl : String) (root : Option String) (v : String) :
    processAttrValue inlineHtml a mainUrl root "a" "href" v
        = some (escapeHtml (urljoin mainUrl v))
      ∧ processAttrValue inlineHtml a mainUrl root "form" "action" v
        = some (escapeHtml (urljoin mainUrl v)) :=
  ⟨rfl, rfl⟩

/-- C6: an archive whose main resource is absent (and which, per the spec's
scenario, holds zero resources) reports `resource_count() = 0`, and `extract`
in either mode raises the `WebArchiveError` for a missing main resource
without writing any file or directory. -/
theorem empty_archive_count_and_extract_error (lp : List (String × String))
    (outputPath : String) :
    resourceCount (.mk none [] [] lp) = 0
      ∧ extract (.mk none [] [] lp) outputPath true
          = .error "archive does not have a main resource"
      ∧ extract (.mk none [] [] lp) outputPath false
          = .error "archive does not have a main resource" := by
  refine ⟨?_, ?_, ?_⟩
  · rw [resourceCount.eq_def]; rfl
  · rw [extract.eq_def]; rfl
  · rw [extract.eq_def]; rfl

/-- C8 counterexample: for the opening `html` tag the rewriter emits the
marker comment *before* the tag, not immediately after it — the output
fragment does not even start with `<html>`. -/
theorem marker_not_after_html_tag :
    buildStarttag (fun _ => "") archiveNoSubs "https://x/index.html" (some "page_files")
        false "html" [] false
      = some "<!-- Processed by pywebarchive -->\n<html>"
      ∧ strStartsWith "<!-- Processed by pywebarchive -->\n<html>" "<html>" = false :=
  ⟨by decide, by decide⟩

/-- C8 as amended: the marker comment flagging that the document was
processed is inserted immediately *before* the opening `html` tag in the
output stream (the source inserts it at position 0 of the tag fragment). -/
theorem marker_inserted_before_html_tag (inlineHtml : WebArchive → String)
    (a : WebArchive) (mainUrl : String) (root : Option String) (isXhtml : Bool)
    (attrs : List (String × String)) (isEmpty : Bool) :
    buildStarttag inlineHtml a mainUrl root isXhtml "html" attrs isEmpty
      = (ordinaryStarttag inlineHtml a mainUrl root isXhtml "html" attrs isEmpty).map
          (fun s => htmlMarker ++ s) := by
  unfold buildStarttag
  rw [if_neg]
  · simp
  · rintro ⟨-, h⟩
    exact absurd h (by decide)

/-- C9: `get_subresource` and `get_subframe_archive` reject any URL not
containing `://` before searching the archive — even when a stored entry
carries exactly that URL — while `get_local_path` performs no such check and
looks the key up directly. -/
theorem relative_url_lookup_guards (a : WebArchive) (url p : String)
    (h : containsSub url "://" = false) :
    getSubresource a url = .error "must specify an absolute URL"
      ∧ getSubframeArchive a url = .error "must specify an absolute URL"
      ∧ (lookupLp a.localPaths url = some p → getLocalPath a url = .ok p) := by
  refine ⟨?_, ?_, fun hl => ?_⟩
  · unfold getSubresource
    rw [if_pos (by simp [h])]
  · unfold getSubframeArchive
    rw [if_pos (by simp [h])]
  · unfold getLocalPath
    rw [hl]

/-- C9 witness: the archive `archiveRelKey` stores a subresource whose `url`
field is the schemeless string `nourl` and a local path under that key;
`get_subresource` still errors on it while `get_local_path` succeeds. -/
theorem relative_url_lookup_guards_witness :
    containsSub "nourl" "://" = false
      ∧ getSubresource archiveRelKey "nourl" = .error "must specify an absolute URL"
      ∧ getLocalPath archiveRelKey "nourl" = .ok "f.png" :=
  ⟨by decide,
   (relative_url_lookup_guards archiveRelKey "nourl" "f.png" (by decide)).1,
   (relative_url_lookup_guards archiveRelKey "nourl" "f.png" (by decide)).2.2 (by decide)⟩

/-- C7: a `url()` literal in a stylesheet is resolved against the style
sheet's *own* URL (`r.url` — the main document's URL plays no part in
`process_style_sheet`), and in linked mode an internal match is substituted
as the bare allocated filename from the table, with no directory prefix. -/
theorem stylesheet_resolves_against_sheet_bare_filename
    (r : WebResource) (subs : List WebResource) (lp : List (String × String))
    (content m p : String)
    (hmime : r.mimeType = "text/css")
    (hdata : bytesToStr r.data = content)
    (hfind : findStyleSheetUrls content = [m])
    (hq : stripQuotes m = m)
    (hne : m ≠ "")
    (hlp : lp.isEmpty = false)
    (hlook : lookupLp lp (urljoin r.url m) = some p) :
    processStyleSheet r subs (some lp) = .ok (strReplace content m p) := by
  unfold processStyleSheet
  rw [if_neg (by simp [hmime])]
  simp only [hdata, hfind, List.foldl_cons, List.foldl_nil, hq]
  rw [if_neg hne]
  simp [hlp, hlook]

/-- C7 witness: the spec's scenario — `bg.png` inside
`https://x/css/site.css` resolves to `https://x/css/bg.png` via the style
sheet's URL and is replaced by the bare allocated filename `bg.2.png`. -/
theorem stylesheet_resolves_against_sheet_witness :
    processStyleSheet siteCss [] (some [("https://x/css/bg.png", "bg.2.png")])
      = .ok "background: url(bg.2.png);" := by
  have h := stylesheet_resolves_against_sheet_bare_filename siteCss []
    [("https://x/css/bg.png", "bg.2.png")] "background: url(bg.png);" "bg.png" "bg.2.png"
    (by decide) (by decide) (by decide) (by decide) (by decide) (by decide) (by decide)
  rw [h]
  exact congrArg Except.ok (by decide)

/-- C10: in linked mode, given that extraction succeeds, the `<stem>_files`
subresource directory is created iff the archive has at least one
subresource or subframe archive; an archive with only a main resource
produces exactly the one output file and no directory. -/
theorem subresource_dir_iff_nonempty (a : WebArchive) (outputPath : String)
    (acts : List FsAction) (h : extract a outputPath false = .ok acts) :
    (FsAction.makeDirs (subresourceDirOf outputPath) ∈ acts
        ↔ a.subresources ≠ [] ∨ a.subframeArchives ≠ [])
      ∧ (a.subresources = [] → a.subframeArchives = [] →
          acts = [FsAction.writeFile outputPath]) := by
  obtain ⟨main, subs, frames, lp⟩ := a
  rw [extract.eq_def] at h
  simp only [WebArchive.subresources, WebArchive.subframeArchives]
  simp only [Bool.false_eq_true, if_false] at h
  split at h
  · exact absurd h (by simp)
  rename_i lp' hA
  split at h
  · exact absurd h (by simp)
  rename_i m
  split at h
  · exact absurd h (by simp)
  rename_i subActs hS
  split at h
  · exact absurd h (by simp)
  rename_i frameActs hF
  injection h with h
  subst h
  by_cases hs : subs = []
  · by_cases hf : frames = []
    · subst hs; subst hf
      obtain rfl : subActs = [] := by simpa [List.mapM.loop] using hS.symm
      obtain rfl : frameActs = [] := by
        simpa [List.mapM.loop, pure, Except.pure] using hF.symm
      simp
    · constructor
      · constructor
        · intro _; exact Or.inr hf
        · intro _
          rw [if_pos (Or.inr (by simpa using hf))]
          simp
      · intro _ h2; exact absurd h2 hf
  · constructor
    · constructor
      · intro _; exact Or.inl hs
      · intro _
        rw [if_pos (Or.inl (by simpa using hs))]
        simp
    · intro h1 _; exact absurd h1 hs

/-- C10 witness: an archive with one subresource creates the directory, and
the empty-tail part holds for the main-only archive `archiveNoSubs`. -/
theorem subresource_dir_iff_nonempty_witness :
    FsAction.makeDirs (subresourceDirOf "page.html")
        ∈ [FsAction.writeFile "page.html", FsAction.makeDirs "page_files",
           FsAction.writeFile "page_files/p.png"]
      ∧ extract archiveNoSubs "page.html" false = .ok [FsAction.writeFile "page.html"] := by
  have h1 : extract archiveOneSub "page.html" false
      = .ok [FsAction.writeFile "page.html", FsAction.makeDirs "page_files",
             FsAction.writeFile "page_files/p.png"] := by
    rw [extract.eq_def]; rfl
  have h2 : extract archiveNoSubs "page.html" false = .ok [FsAction.writeFile "page.html"] := by
    rw [extract.eq_def]; rfl
  refine ⟨(subresource_dir_iff_nonempty archiveOneSub "page.html" _ h1).1.mpr
      (Or.inl (by decide)), h2⟩

/-! Injectivity of the decimal representation, needed to show the collision
loop of the allocator always exits on a fresh name. -/

theorem toDigitsCore_eq_decimalDigits (fuel : Nat) :
    ∀ (n : Nat) (acc : List Char), n < fuel →
      Nat.toDigitsCore 10 fuel n acc = decimalDigits n ++ acc := by
  induction fuel with
  | zero => intro n acc h; omega
  | succ f ih =>
    intro n acc h
    simp only [Nat.toDigitsCore]
    by_cases h10 : n / 10 = 0
    · have hn : n < 10 := (Nat.div_eq_zero_iff (by omega)).mp h10
      rw [if_pos h10, decimalDigits.eq_def, if_pos hn, Nat.mod_eq_of_lt hn]
      rfl
    · have hn0 : n ≠ 0 := fun he => h10 (by simp [he])
      have hrec : n / 10 < f := by
        have hd : n / 10 < n := Nat.div_lt_self (Nat.pos_of_ne_zero hn0) (by norm_num)
        omega
      have hn10 : ¬ n < 10 := fun hlt => h10 (Nat.div_eq_of_lt hlt)
      rw [if_neg h10, ih (n / 10) (Nat.digitChar (n % 10) :: acc) hrec]
      conv_rhs => rw [decimalDigits.eq_def, if_neg hn10]
      simp

theorem repr_eq_decimalDigits (n : Nat) : Nat.repr n = String.mk (decimalDigits n) := by
  show (Nat.toDigits 10 n).asString = String.mk (decimalDigits n)
  unfold Nat.toDigits
  rw [toDigitsCore_eq_decimalDigits (n + 1) n [] (by omega)]
  simp [List.asString]

theorem digitChar_val (d : Nat) (h : d < 10) :
    (Nat.digitChar d).toNat - '0'.toNat = d := by
  interval_cases d <;> decide

theorem digitsVal_decimalDigits (n : Nat) : digitsVal (decimalDigits n) = n := by
  induction n using Nat.strong_induction_on with
  | _ n ih =>
    rw [decimalDigits.eq_def]
    by_cases hn : n < 10
    · rw [if_pos hn]
      show 0 * 10 + ((Nat.digitChar n).toNat - '0'.toNat) = n
      rw [digitChar_val n hn]
      omega
    · rw [if_neg hn]
      unfold digitsVal
      rw [List.foldl_append]
      have ihv := ih (n / 10) (Nat.div_lt_self (by omega) (by omega))
      unfold digitsVal at ihv
      rw [ihv]
      simp only [List.foldl_cons, List.foldl_nil]
      rw [digitChar_val (n % 10) (Nat.mod_lt _ (by omega))]
      omega

theorem decimalDigits_injective : Function.Injective decimalDigits := by
  intro a b h
  have h2 := congrArg digitsVal h
  rwa [digitsVal_decimalDigits, digitsVal_decimalDigits] at h2

theorem natRepr_injective : Function.Injective Nat.repr := by
  intro a b h
  apply decimalDigits_injective
  have h2 := congrArg String.data h
  rw [repr_eq_decimalDigits, repr_eq_decimalDigits] at h2
  exact h2

theorem localPathCand_injective (base ext : String) :
    Function.Injective (localPathCand base ext) := by
  intro k1 k2 h
  unfold localPathCand at h
  have hd := congrArg String.data h
  simp only [String.data_append, List.append_assoc] at hd
  have h1 := List.append_cancel_left hd
  have h2 := List.append_cancel_left h1
  have h3 := List.append_cancel_right h2
  exact natRepr_injective (String.ext h3)

/-- Among any `used.length + 1` consecutive collision candidates there is one
not yet used (the candidates are pairwise distinct). -/
theorem exists_fresh_cand (base ext : String) (used : List String) (k : Nat) :
    ∃ j, k ≤ j ∧ j ≤ k + used.length ∧ localPathCand base ext j ∉ used := by
  by_contra hc
  push_neg at hc
  have hsub : ((List.range' k (used.length + 1)).map (localPathCand base ext)) ⊆ used := by
    intro s hs
    simp only [List.mem_map, List.mem_range'_1] at hs
    obtain ⟨j, ⟨hj1, hj2⟩, rfl⟩ := hs
    exact hc j hj1 (by omega)
  have hnd : ((List.range' k (used.length + 1)).map (localPathCand base ext)).Nodup :=
    (List.nodup_range' k (used.length + 1)).map (localPathCand_injective base ext)
  have hcard1 : ((List.range' k (used.length + 1)).map (localPathCand base ext)).toFinset.card
      = used.length + 1 := by
    rw [List.toFinset_card_of_nodup hnd]
    simp
  have hcard2 : ((List.range' k (used.length + 1)).map (localPathCand base ext)).toFinset
      ⊆ used.toFinset := by
    intro x hx
    rw [List.mem_toFinset] at hx ⊢
    exact hsub hx
  have h3 := Finset.card_le_card hcard2
  have h4 := List.toFinset_card_le (l := used)
  omega

theorem uniquifyFrom_not_mem (base ext : String) (used : List String) :
    ∀ fuel k, (∃ j, k ≤ j ∧ j ≤ k + fuel ∧ localPathCand base ext j ∉ used) →
      uniquifyFrom base ext used k fuel ∉ used := by
  intro fuel
  induction fuel with
  | zero =>
    rintro k ⟨j, hj1, hj2, hj3⟩
    have hjk : j = k := by omega
    subst hjk
    simpa [uniquifyFrom] using hj3
  | succ f ih =>
    rintro k ⟨j, hj1, hj2, hj3⟩
    simp only [uniquifyFrom]
    by_cases hmem : localPathCand base ext k ∈ used
    · rw [if_pos hmem]
      apply ih
      have hjk : j ≠ k := fun he => hj3 (he ▸ hmem)
      exact ⟨j, by omega, by omega, hj3⟩
    · rw [if_neg hmem]
      exact hmem

/-- `_make_local_path` never returns a name already among the allocated
values. -/
theorem makeLocalPath_not_mem (lp : List (String × String)) (r : WebResource) :
    makeLocalPath lp r ∉ lp.map (fun e => e.2) := by
  simp only [makeLocalPath]
  by_cases hf : deriveBase r ++ (guessExtension r.mimeType).getD ""
      ∈ lp.map (fun e => e.2)
  · rw [if_pos hf]
    apply uniquifyFrom_not_mem
    obtain ⟨j, h1, h2, h3⟩ := exists_fresh_cand (deriveBase r)
      ((guessExtension r.mimeType).getD "") (lp.map (fun e => e.2)) 2
    exact ⟨j, h1, by omega, h3⟩
  · rw [if_neg hf]
    exact hf

theorem insertLocalPath_values_nodup (lp : List (String × String)) (r : WebResource)
    (h : (lp.map (fun e => e.2)).Nodup) :
    ((insertLocalPath lp r).map (fun e => e.2)).Nodup := by
  unfold insertLocalPath
  by_cases hk : (lookupLp lp r.url).isSome
  · rw [if_pos hk]
    exact h
  · rw [if_neg hk]
    rw [List.map_append]
    refine h.append (List.nodup_singleton _) ?_
    intro x hx hx2
    simp only [List.map_cons, List.map_nil, List.mem_singleton] at hx2
    subst hx2
    exact makeLocalPath_not_mem lp r hx

theorem makeLocalPathsFrom_values_nodup (rs : List WebResource) :
    ∀ lp : List (String × String), (lp.map (fun e => e.2)).Nodup →
      ((makeLocalPathsFrom lp rs).map (fun e => e.2)).Nodup := by
  induction rs with
  | nil => intro lp h; exact h
  | cons r rs ih =>
    intro lp h
    exact ih _ (insertLocalPath_values_nodup lp r h)

/-- C3: the local path allocator assigns different filenames to any two
resources with distinct URLs allocated into the same tree (starting from an
empty table, as at tree build time); the incrementing `base.2.ext`,
`base.3.ext`, ... suffix loop embedded in `makeLocalPath` guarantees each
newly allocated name avoids every already-allocated value. -/
theorem allocator_distinct_urls_distinct_paths (rs : List WebResource)
    (u1 u2 p1 p2 : String)
    (h1 : (u1, p1) ∈ makeLocalPathsFrom [] rs)
    (h2 : (u2, p2) ∈ makeLocalPathsFrom [] rs)
    (hu : u1 ≠ u2) : p1 ≠ p2 := by
  intro hp
  subst hp
  have hnd := makeLocalPathsFrom_values_nodup rs [] (by simp)
  have heq := List.inj_on_of_nodup_map hnd h1 h2 rfl
  exact hu (congrArg Prod.fst heq)

/-- C3 witness: two resources that both sanitise to the basename `pic.png`
get `pic.png` and `pic.2.png`. -/
theorem allocator_distinct_urls_witness :
    (("https://x/pic.png", "pic.png") ∈ makeLocalPathsFrom [] [picA, picB])
      ∧ (("https://y/pic.png", "pic.2.png") ∈ makeLocalPathsFrom [] [picA, picB])
      ∧ ("pic.png" : String) ≠ "pic.2.png" :=
  ⟨by decide, by decide,
   allocator_distinct_urls_distinct_paths [picA, picB] "https://x/pic.png"
     "https://y/pic.png" "pic.png" "pic.2.png" (by decide) (by decide) (by decide)⟩

/-! Round-trip lemmas for the `srcset` item grammar: splitting a `", "`-joined
list of space-free-URL plus descriptor items recovers the items. -/

theorem strAppend_assoc (a b c : String) : a ++ b ++ c = a ++ (b ++ c) :=
  String.ext (by simp)

theorem intercalate_go_append (s : String) (as : List String) :
    ∀ acc1 acc2 : String, String.intercalate.go (acc1 ++ acc2) s as
      = acc1 ++ String.intercalate.go acc2 s as := by
  induction as with
  | nil => intro acc1 acc2; rfl
  | cons a as ih =>
    intro acc1 acc2
    show String.intercalate.go (acc1 ++ acc2 ++ s ++ a) s as
      = acc1 ++ String.intercalate.go (acc2 ++ s ++ a) s as
    rw [strAppend_assoc (acc1 ++ acc2) s a, strAppend_assoc acc1 acc2 (s ++ a),
      ← strAppend_assoc acc2 s a]
    exact ih acc1 (acc2 ++ s ++ a)

theorem intercalate_cons_cons (s a b : String) (rest : List String) :
    String.intercalate s (a :: b :: rest) = a ++ s ++ String.intercalate s (b :: rest) := by
  show String.intercalate.go (a ++ s ++ b) s rest = a ++ s ++ String.intercalate.go b s rest
  exact intercalate_go_append s rest (a ++ s) b

theorem intercalate_comma_space_data (parts : List String) :
    ∀ p : String, (String.intercalate ", " (p :: parts)).data
      = p.data ++ (parts.map (fun q => ',' :: ' ' :: q.data)).flatten := by
  induction parts with
  | nil => intro p; simp [String.intercalate, String.intercalate.go]
  | cons q rest ih =>
    intro p
    rw [intercalate_cons_cons]
    simp only [String.data_append, ih q, List.map_cons, List.flatten_cons]
    simp [List.append_assoc]

theorem splitOnCommaAux_no_comma (l : List Char) (h : ',' ∉ l) :
    ∀ acc, splitOnCommaAux acc l = [acc.reverse ++ l] := by
  induction l with
  | nil => intro acc; simp [splitOnCommaAux]
  | cons c rest ih =>
    intro acc
    have hc : c ≠ ',' := fun he => h (he ▸ List.mem_cons_self c rest)
    rw [splitOnCommaAux, if_neg hc, ih (fun hm => h (List.mem_cons_of_mem c hm)) (c :: acc)]
    simp

theorem splitOnCommaAux_split (l1 : List Char) (h1 : ',' ∉ l1) (l2 : List Char) :
    ∀ acc, splitOnCommaAux acc (l1 ++ ',' :: l2)
      = (acc.reverse ++ l1) :: splitOnCommaAux [] l2 := by
  induction l1 with
  | nil => intro acc; simp [splitOnCommaAux]
  | cons c rest ih =>
    intro acc
    have hc : c ≠ ',' := fun he => h1 (he ▸ List.mem_cons_self c rest)
    rw [List.cons_append, splitOnCommaAux, if_neg hc,
      ih (fun hm => h1 (List.mem_cons_of_mem c hm)) (c :: acc)]
    simp

theorem splitAux_flatten (ps : List (List Char)) :
    ∀ first : List Char, ',' ∉ first → (∀ l ∈ ps, ',' ∉ l) →
      splitOnCommaAux [] (first ++ (ps.map (fun l => ',' :: l)).flatten)
        = first :: ps := by
  induction ps with
  | nil =>
    intro first hf _
    simp [splitOnCommaAux_no_comma first hf]
  | cons l ps ih =>
    intro first hf hps
    simp only [List.map_cons, List.flatten_cons]
    rw [show first ++ ((',' :: l) ++ (ps.map (fun x => ',' :: x)).flatten)
        = first ++ ',' :: (l ++ (ps.map (fun x => ',' :: x)).flatten) from by simp]
    rw [splitOnCommaAux_split first hf _ []]
    simp only [List.reverse_nil, List.nil_append]
    rw [ih l (hps l (by simp)) (fun x hx => hps x (by simp [hx]))]

theorem splitOnComma_intercalate (p : String) (parts : List String)
    (hp : ',' ∉ p.data) (hparts : ∀ q ∈ parts, ',' ∉ q.data) :
    splitOnComma (String.intercalate ", " (p :: parts))
      = p :: parts.map (fun q => String.mk (' ' :: q.data)) := by
  unfold splitOnComma
  rw [intercalate_comma_space_data]
  have hshape : (parts.map (fun q => ',' :: ' ' :: q.data)).flatten
      = ((parts.map (fun q => ' ' :: q.data)).map (fun l => ',' :: l)).flatten := by
    rw [List.map_map]
    rfl
  rw [hshape, splitAux_flatten (parts.map (fun q => ' ' :: q.data)) p.data hp ?_]
  · simp [List.map_map]
  · intro l hl
    simp only [List.mem_map] at hl
    obtain ⟨q, hq, rfl⟩ := hl
    intro hm
    rcases List.mem_cons.mp hm with h | h
    · exact absurd h (by decide)
    · exact hparts q hq h

theorem pyStrip_space_cons (s : String) :
    pyStrip (String.mk (' ' :: s.data)) = pyStrip s := by
  unfold pyStrip
  rw [show (String.mk (' ' :: s.data)).data = ' ' :: s.data from rfl,
    List.dropWhile_cons, if_pos (by decide)]

theorem takeWhile_no_space (u : List Char) (hu : ' ' ∉ u) (d : List Char) :
    (u ++ ' ' :: d).takeWhile (fun c => c ≠ ' ') = u := by
  induction u with
  | nil => simp [List.takeWhile_cons]
  | cons c rest ih =>
    have hc : c ≠ ' ' := fun he => hu (he ▸ List.mem_cons_self c rest)
    rw [List.cons_append, List.takeWhile_cons, if_pos (by simp [hc]),
      ih (fun hm => hu (List.mem_cons_of_mem c hm))]

theorem splitFirstSpace_append (u d : String) (hu : ' ' ∉ u.data) :
    splitFirstSpace (u ++ " " ++ d) = some (u, d) := by
  unfold splitFirstSpace
  have hdata : (u ++ " " ++ d).data = u.data ++ ' ' :: d.data := by simp
  rw [hdata, takeWhile_no_space u.data hu d.data]
  simp only [List.drop_left]

theorem mapM_map_all_some {α β γ : Type} (f : β → Option γ) (r : α → β) (g : α → γ) :
    ∀ l : List α, (∀ x ∈ l, f (r x) = some (g x)) →
      (l.map r).mapM f = some (l.map g) := by
  intro l
  induction l with
  | nil => intro _; rfl
  | cons x xs ih =>
    intro h
    rw [List.map_cons, List.mapM_cons, h x (List.mem_cons_self x xs),
      ih (fun y hy => h y (List.mem_cons_of_mem x hy))]
    rfl

theorem starttagAttrs_img_filter (inlineHtml : WebArchive → String) (a : WebArchive)
    (mainUrl : String) (root : Option String) (attrs : List (String × String)) :
    starttagAttrs inlineHtml a mainUrl root "img" attrs
      = starttagAttrs inlineHtml a mainUrl root "img"
          (attrs.filter (fun p => ¬ p.1 = "srcset")) := by
  induction attrs with
  | nil => rfl
  | cons p rest ih =>
    obtain ⟨attr, v⟩ := p
    by_cases hA : attr = "srcset"
    · subst hA
      rw [List.filter_cons_of_neg (by simp)]
      rw [show starttagAttrs inlineHtml a mainUrl root "img" (("srcset", v) :: rest)
          = starttagAttrs inlineHtml a mainUrl root "img" rest from by simp [starttagAttrs]]
      exact ih
    · rw [List.filter_cons_of_pos (by simpa using hA)]
      have hno : ¬ (("img" : String) = "img" ∧ attr = "srcset") := fun hand => hA hand.2
      simp only [starttagAttrs, if_neg hno]
      rw [ih]

/-- C2 counterexample: an `img` tag carrying a `srcset` attribute is emitted
with the attribute omitted entirely, contradicting the claim that a
rewritten `srcset` is present in the output for every tag that carried one,
including `img`. -/
theorem img_srcset_omitted :
    buildStarttag (fun _ => "") archiveNoSubs "https://x/index.html" (some "page_files")
        false "img" [("srcset", "pic.png 1x")] false = some "<img>"
      ∧ containsSub "<img>" "srcset" = false :=
  ⟨by decide, by decide⟩

/-- C2 as amended: the rewriter parses a `srcset` value as a comma-separated
list of `url descriptor` items (a descriptor-less item raises `ValueError`),
rewrites each URL by `_resource_url`, passes descriptors through verbatim,
and re-joins with `", "` — but for `img` tags the attribute is omitted from
the output entirely (the attribute loop behaves as if `srcset` were filtered
out of an `img` tag's attribute list); other tags keep the rewritten
attribute. -/
theorem srcset_rewritten_except_img
    (inlineHtml : WebArchive → String) (a : WebArchive) (mainUrl : String)
    (root : Option String) (it0 : String × String) (items : List (String × String))
    (hs : ∀ it ∈ it0 :: items, ' ' ∉ it.1.data ∧ ',' ∉ it.1.data ∧ ',' ∉ it.2.data
            ∧ pyStrip (it.1 ++ " " ++ it.2) = it.1 ++ " " ++ it.2) :
    processSrcset a mainUrl root
        (String.intercalate ", " ((it0 :: items).map (fun it => it.1 ++ " " ++ it.2)))
      = some (String.intercalate ", "
          ((it0 :: items).map (fun it => resourceUrl a mainUrl root it.1 ++ " " ++ it.2)))
    ∧ (∀ (isXhtml : Bool) (attrs : List (String × String)) (isEmpty : Bool),
        buildStarttag inlineHtml a mainUrl root isXhtml "img" attrs isEmpty
          = buildStarttag inlineHtml a mainUrl root isXhtml "img"
              (attrs.filter (fun p => ¬ p.1 = "srcset")) isEmpty) := by
  constructor
  · unfold processSrcset
    have hsplit : splitOnComma
        (String.intercalate ", " ((it0 :: items).map (fun it => it.1 ++ " " ++ it.2)))
        = (it0.1 ++ " " ++ it0.2)
            :: (items.map (fun it => it.1 ++ " " ++ it.2)).map
                (fun q => String.mk (' ' :: q.data)) := by
      rw [List.map_cons]
      apply splitOnComma_intercalate
      · obtain ⟨-, h2, h3, -⟩ := hs it0 (List.mem_cons_self it0 items)
        simp [h2, h3]
      · intro q hq
        simp only [List.mem_map] at hq
        obtain ⟨it, hit, rfl⟩ := hq
        obtain ⟨-, h2, h3, -⟩ := hs it (List.mem_cons_of_mem it0 hit)
        simp [h2, h3]
    rw [hsplit]
    have hstrip : ((it0.1 ++ " " ++ it0.2)
          :: (items.map (fun it => it.1 ++ " " ++ it.2)).map
              (fun q => String.mk (' ' :: q.data))).map pyStrip
        = (it0 :: items).map (fun it => it.1 ++ " " ++ it.2) := by
      rw [List.map_cons, List.map_map, List.map_cons]
      obtain ⟨-, -, -, h4⟩ := hs it0 (List.mem_cons_self it0 items)
      rw [h4]
      congr 1
      rw [List.map_map]
      apply List.map_congr_left
      intro it hit
      obtain ⟨-, -, -, h4'⟩ := hs it (List.mem_cons_of_mem it0 hit)
      show pyStrip (String.mk (' ' :: (it.1 ++ " " ++ it.2).data)) = it.1 ++ " " ++ it.2
      rw [pyStrip_space_cons, h4']
    rw [hstrip]
    rw [mapM_map_all_some
      (fun item => (splitFirstSpace item).map
        (fun sr => resourceUrl a mainUrl root sr.1 ++ " " ++ sr.2))
      (fun it => it.1 ++ " " ++ it.2)
      (fun it => resourceUrl a mainUrl root it.1 ++ " " ++ it.2)
      (it0 :: items) ?_]
    · rfl
    · intro it hit
      obtain ⟨h1, -, -, -⟩ := hs it hit
      show (splitFirstSpace (it.1 ++ " " ++ it.2)).map
          (fun sr => resourceUrl a mainUrl root sr.1 ++ " " ++ sr.2)
        = some (resourceUrl a mainUrl root it.1 ++ " " ++ it.2)
      rw [splitFirstSpace_append it.1 it.2 h1]
      rfl
  · intro isXhtml attrs isEmpty
    have hcond : ¬ (root = none ∧ ("img" : String) = "link") :=
      fun hand => absurd hand.2 (by decide)
    unfold buildStarttag
    rw [if_neg hcond, if_neg hcond]
    unfold ordinaryStarttag
    rw [starttagAttrs_img_filter]

/-- C2 witness: a two-item `srcset` on a non-`img` tag is rewritten itemwise
(the archived `p.png` becomes a local path, the external `pic.png` its
absolute URL) and re-joined with `", "`. -/
theorem srcset_rewritten_except_img_witness :
    processSrcset archiveOneSub "https://x/index.html" (some "page_files")
        "pic.png 1x, https://x/p.png 2x"
      = some "https://x/pic.png 1x, page_files/p.png 2x" := by
  have h := (srcset_rewritten_except_img (fun _ => "") archiveOneSub "https://x/index.html"
    (some "page_files") ("pic.png", "1x") [("https://x/p.png", "2x")] (by decide)).1
  have e1 : String.intercalate ", "
      (([("pic.png", "1x"), ("https://x/p.png", "2x")] : List (String × String)).map
        (fun it => it.1 ++ " " ++ it.2)) = "pic.png 1x, https://x/p.png 2x" := by decide
  have e2 : String.intercalate ", "
      (([("pic.png", "1x"), ("https://x/p.png", "2x")] : List (String × String)).map
        (fun it => resourceUrl archiveOneSub "https://x/index.html" (some "page_files") it.1
          ++ " " ++ it.2)) = "https://x/pic.png 1x, page_files/p.png 2x" := by decide
  rw [e1, e2] at h
  exact h

/-! Helper lemmas for the mode-equivalence comparison (C4). -/

theorem toDataUri_inlineHtml_irrelevant (inlineHtml : WebArchive → String)
    (a : WebArchive) (r : WebResource) (h : r.url ≠ archiveMainUrl a) :
    toDataUri inlineHtml a r = toDataUri (fun _ => "") a r := by
  simp only [toDataUri]
  rw [if_neg h, if_neg h]

theorem logicalReferent_none_plain (a : WebArchive) (v : String)
    (h1 : ∀ e ∈ a.localPaths, ¬ e.2 = v)
    (h2 : ∀ r ∈ a.subresources, ¬ toDataUri (fun _ => "") a r = v) :
    logicalReferent a none v = v := by
  simp only [logicalReferent]
  rw [List.find?_eq_none.mpr (fun e he => by simpa using h1 e he),
    List.find?_eq_none.mpr (fun r hr => by simpa using h2 r hr)]

theorem logicalReferent_data_uri (a : WebArchive) (r : WebResource)
    (hr : r ∈ a.subresources)
    (hpd : ∀ e ∈ a.localPaths, ¬ e.2 = toDataUri (fun _ => "") a r)
    (huniq : ∀ r2 ∈ a.subresources,
        toDataUri (fun _ => "") a r2 = toDataUri (fun _ => "") a r → r2.url = r.url) :
    logicalReferent a none (toDataUri (fun _ => "") a r) = r.url := by
  simp only [logicalReferent]
  rw [List.find?_eq_none.mpr (fun e he => by simpa using hpd e he)]
  rcases hfind : a.subresources.find?
      (fun res => toDataUri (fun _ => "") a res = toDataUri (fun _ => "") a r)
      with _ | res
  · rw [List.find?_eq_none] at hfind
    exact absurd (by simp : (decide (toDataUri (fun _ => "") a r
        = toDataUri (fun _ => "") a r)) = true) (hfind r hr)
  · have h5 := List.find?_some hfind
    simp only [decide_eq_true_eq] at h5
    exact huniq res (List.mem_of_find?_eq_some hfind) h5

theorem logicalReferent_local_path (a : WebArchive) (dir : String)
    (e0 : String × String) (hdir : dir ≠ "") (hmem : e0 ∈ a.localPaths)
    (hvals : (a.localPaths.map (fun e => e.2)).Nodup) :
    logicalReferent a (some dir) (dir ++ "/" ++ e0.2) = e0.1 := by
  simp only [logicalReferent]
  have hdirne : ¬ dir.data.isEmpty = true := by
    simp only [List.isEmpty_iff]
    intro hd
    exact hdir (String.ext (by simpa using hd))
  have hdata : (dir ++ "/" ++ e0.2).data = (dir ++ "/").data ++ e0.2.data := by simp
  have hprefOf : (dir ++ "/").data.isPrefixOf (dir ++ "/" ++ e0.2).data = true := by
    rw [hdata]
    exact List.isPrefixOf_iff_prefix.mpr (List.prefix_append _ _)
  have hc : (¬ dir.data.isEmpty = true
      ∧ (dir ++ "/").data.isPrefixOf (dir ++ "/" ++ e0.2).data = true) := ⟨hdirne, hprefOf⟩
  simp only [if_pos hc]
  have hdropS : String.mk ((dir ++ "/" ++ e0.2).data.drop (dir.data.length + 1)) = e0.2 := by
    rw [hdata, show dir.data.length + 1 = ((dir ++ "/").data).length from by simp,
      List.drop_left]
  rw [hdropS]
  rcases hfind : a.localPaths.find? (fun e => e.2 = e0.2) with _ | e1
  · rw [List.find?_eq_none] at hfind
    exact absurd (by simp : (decide (e0.2 = e0.2)) = true) (hfind e0 hmem)
  · have he1 := List.find?_some hfind
    simp only [decide_eq_true_eq] at he1
    have heq := List.inj_on_of_nodup_map hvals (List.mem_of_find?_eq_some hfind) hmem he1
    rw [hfind, heq]

/-- C4 counterexample: with main resource URL `https://x/index.html` and no
archived copy of `pic.png`, the linked rendering rewrites
`<img src="pic.png">` to the absolute `https://x/pic.png` while the embedded
rendering leaves the relative text `pic.png` verbatim, so the two renderings
reference different logical resources. -/
theorem mode_referent_mismatch :
    logicalReferent archiveNoSubs (some "page_files")
        ((processAttrValue (fun _ => "") archiveNoSubs "https://x/index.html"
          (some "page_files") "img" "src" "pic.png").getD "")
      = "https://x/pic.png"
    ∧ logicalReferent archiveNoSubs none
        ((processAttrValue (fun _ => "") archiveNoSubs "https://x/index.html"
          none "img" "src" "pic.png").getD "")
      = "pic.png"
    ∧ ("https://x/pic.png" : String) ≠ "pic.png" :=
  ⟨by decide, by decide, by decide⟩

/-- C4 as amended: for a plain `src` reference (non-frame tag) whose source
text is already an absolute URL, the linked and embedded renderings
reference the same logical resource — both referents equal the resolved
URL — under the usual wellformedness of the archive (allocated filenames
pairwise distinct; no subresource shares the main resource's URL; data URIs
identify their resource; filenames, data URIs and the reference text do not
collide with one another and escaping is neutral on them).  The claim fails
without the absoluteness proviso because the embedded rewriter leaves an
unmatched reference verbatim while the linked rewriter absolutises it (see
the counterexample). -/
theorem mode_referents_agree_amended
    (inlineHtml : WebArchive → String) (a : WebArchive) (mainUrl dir : String)
    (tag v : String)
    (htag1 : tag ≠ "frame") (htag2 : tag ≠ "iframe")
    (hdir : dir ≠ "")
    (habs : urljoin mainUrl v = v)
    (hescv : escapeHtml v = v)
    (hvals : (a.localPaths.map (fun e => e.2)).Nodup)
    (hnotmain : ∀ r ∈ a.subresources, r.url ≠ archiveMainUrl a)
    (huniq : ∀ r1 ∈ a.subresources, ∀ r2 ∈ a.subresources,
        toDataUri (fun _ => "") a r1 = toDataUri (fun _ => "") a r2 → r1.url = r2.url)
    (hescp : ∀ e ∈ a.localPaths, escapeHtml (dir ++ "/" ++ e.2) = dir ++ "/" ++ e.2)
    (hescd : ∀ r ∈ a.subresources,
        escapeHtml (toDataUri (fun _ => "") a r) = toDataUri (fun _ => "") a r)
    (hpd : ∀ e ∈ a.localPaths, ∀ r ∈ a.subresources, e.2 ≠ toDataUri (fun _ => "") a r)
    (hpv : ∀ e ∈ a.localPaths, e.2 ≠ v)
    (hdv : ∀ r ∈ a.subresources, toDataUri (fun _ => "") a r ≠ v)
    (hpre : (dir ++ "/").data.isPrefixOf v.data = false) :
    logicalReferent a (some dir)
        ((processAttrValue inlineHtml a mainUrl (some dir) tag "src" v).getD "")
      = urljoin mainUrl v
    ∧ logicalReferent a none
        ((processAttrValue inlineHtml a mainUrl none tag "src" v).getD "")
      = urljoin mainUrl v := by
  have hraw : ∀ root : Option String,
      (processAttrValue inlineHtml a mainUrl root tag "src" v).getD ""
        = escapeHtml (if rootTruthy root then resourceUrl a mainUrl root v
            else match getSubresource a (urljoin mainUrl v) with
                 | .ok res => toDataUri inlineHtml a res
                 | .error _ => v) := by
    intro root
    show escapeHtml (processAttrRaw inlineHtml a mainUrl root tag "src" v) = _
    congr 1
    unfold processAttrRaw
    rw [if_neg (fun h => h.elim (fun h1 => absurd h1.2 (by decide))
        (fun h1 => absurd h1.2 (by decide)))]
    rw [if_pos (Or.inl rfl)]
    rw [if_neg (fun h => h.elim htag1 htag2)]
  have hdirT : rootTruthy (some dir) = true := by
    simp only [rootTruthy, List.isEmpty_iff, decide_eq_true_eq]
    intro hd
    exact hdir (String.ext (by simpa using hd))
  have hrefPlain : logicalReferent a (some dir) v = v := by
    simp only [logicalReferent, hpre]
    rw [if_neg (by simp)]
    rw [List.find?_eq_none.mpr (fun e he => by simpa using hpv e he),
      List.find?_eq_none.mpr (fun r hr => by simpa using hdv r hr)]
  have hdirP : ¬ dir.data.isEmpty = true := by
    simp only [List.isEmpty_iff]
    intro hd
    exact hdir (String.ext (by simpa using hd))
  constructor
  · -- Linked mode.
    rw [hraw (some dir), hdirT, if_pos rfl]
    simp only [resourceUrl]
    rw [habs]
    rcases hgl : getLocalPath a v with e | p
    · simp only []
      rw [hescv, hrefPlain]
    · simp only [if_pos hdirP]
      have hlk : lookupLp a.localPaths v = some p := by
        unfold getLocalPath at hgl
        rcases hl : lookupLp a.localPaths v with _ | q <;> rw [hl] at hgl
        · exact absurd hgl (by simp)
        · injection hgl with h2
          rw [h2]
      obtain ⟨e0, hf0, hp0⟩ : ∃ e0, a.localPaths.find? (fun e => e.1 = v) = some e0
          ∧ e0.2 = p := by
        unfold lookupLp at hlk
        rcases hf : a.localPaths.find? (fun e => e.1 = v) with _ | e0 <;> rw [hf] at hlk
        · exact absurd hlk (by simp)
        · injection hlk with h2
          exact ⟨e0, hf, h2⟩
      have hmem0 := List.mem_of_find?_eq_some hf0
      have hkey0 : e0.1 = v := by
        have h3 := List.find?_some hf0
        simpa [decide_eq_true_eq] using h3
      rw [← hp0, hescp e0 hmem0,
        logicalReferent_local_path a dir e0 hdir hmem0 hvals, hkey0]
  · -- Embedded mode.
    rw [hraw none]
    rw [show rootTruthy none = false from rfl, if_neg (by simp), habs]
    rcases hgs : getSubresource a v with e | r
    · simp only []
      rw [hescv,
        logicalReferent_none_plain a v (fun e he => hpv e he) (fun r hr => hdv r hr)]
    · simp only []
      obtain ⟨hrmem, hrkey⟩ : r ∈ a.subresources ∧ r.url = v := by
        unfold getSubresource at hgs
        split at hgs
        · exact absurd hgs (by simp)
        · rcases hf : a.subresources.find? (fun x => x.url = v) with _ | r0 <;>
            rw [hf] at hgs
          · exact absurd hgs (by simp)
          · injection hgs with h2
            subst h2
            refine ⟨List.mem_of_find?_eq_some hf, ?_⟩
            have h3 := List.find?_some hf
            simpa [decide_eq_true_eq] using h3
      rw [toDataUri_inlineHtml_irrelevant inlineHtml a r
          (fun he => hnotmain r hrmem he),
        hescd r hrmem,
        logicalReferent_data_uri a r hrmem (fun e he => hpd e he r hrmem)
          (fun r2 h2 himp => huniq r2 h2 r hrmem himp),
        hrkey]

/-- C4 witness: with `https://x/p.png` archived, both modes reference the
logical resource `https://x/p.png` — the linked rendering via
`page_files/p.png` followed back through the table, the embedded rendering
via the subresource's data URI. -/
theorem mode_referents_agree_witness :
    logicalReferent archiveOneSub (some "page_files")
        ((processAttrValue (fun _ => "") archiveOneSub "https://x/index.html"
          (some "page_files") "img" "src" "https://x/p.png").getD "")
      = "https://x/p.png"
    ∧ logicalReferent archiveOneSub none
        ((processAttrValue (fun _ => "") archiveOneSub "https://x/index.html"
          none "img" "src" "https://x/p.png").getD "")
      = "https://x/p.png" := by
  have h := mode_referents_agree_amended (fun _ => "") archiveOneSub "https://x/index.html"
    "page_files" "img" "https://x/p.png" (by decide) (by decide) (by decide) (by decide)
    (by decide) (by decide) (by decide) (by decide) (by decide) (by decide) (by decide)
    (by decide) (by decide) (by decide)
  have e : urljoin "https://x/index.html" "https://x/p.png" = "https://x/p.png" := by decide
  exact ⟨e ▸ h.1, e ▸ h.2⟩

end Pywebarchive
